import Mathlib

/-!
Shallow embedding of `src/Hudsonrock_api_check.py`.

Strings are modelled as `List Char` (concrete literals are written
`"...".data`).  Python `None` becomes `Option.none`, Python lists become
`List`, Python sets become `Finset`.  The network, the clock and the
shared shutdown flag are modelled by explicit oracles passed to the
functions that consult them.
-/

/-- A raw entry of the `domains.json` input list: either a string or some
non-string JSON value (which the loader skips with a warning). -/
inductive RawEntry where
  | str (s : List Char)
  | nonString
deriving DecidableEq

/-- `clean_domain` (lines 44-50): strips a leading `"www."` (one test of
`domain.startswith('www.')`, removing the first 4 characters) and then a
single trailing `'.'` (one test of `domain.endswith('.')`, removing the
last character). -/
def clean_domain (d : List Char) : List Char :=
  let d1 := if d.take 4 = ['w', 'w', 'w', '.'] then d.drop 4 else d
  if d1.getLast? = some '.' then d1.dropLast else d1

/-- Character class `[a-zA-Z]` of the validation regex under
`re.IGNORECASE` in Unicode mode: besides the ASCII letters, exactly
four further code points match, because their case mappings land in
`a`-`z`: U+0130 (I with dot above), U+0131 (dotless i), U+017F (long s)
and U+212A (Kelvin sign).  (Established by checking every Unicode code
point against the compiled pattern.) -/
def isAlphaIgnoreCase (c : Char) : Bool :=
  c.isAlpha || c = '\u0130' || c = '\u0131' || c = '\u017F' || c = '\u212A'

/-- Character class `[a-zA-Z0-9-_]` of the validation regex under
`re.IGNORECASE`: the case-insensitive letters plus digits, `-` and `_`
(digits and punctuation have no case). -/
def isWordChar (c : Char) : Bool :=
  isAlphaIgnoreCase c || c.isDigit || c = '-' || c = '_'

/-- Splits a character list on `'.'`; always returns at least one part,
and the parts joined with `'.'` give back the input.  Mirrors how the
anchored regex decomposes the string into dot-separated labels. -/
def splitOnDot : List Char → List (List Char)
  | [] => [[]]
  | c :: rest =>
    if c = '.' then [] :: splitOnDot rest
    else
      match splitOnDot rest with
      | [] => [[c]]
      | p :: ps => (c :: p) :: ps

/-- The regex body `([a-zA-Z0-9-_]+\.)+[a-zA-Z]{2,15}` matched against
an entire string: a dot-separated sequence of at least two labels where
every label but the last is a non-empty run of `[a-zA-Z0-9-_]` and the
last label is 2-15 letters (both classes under IGNORECASE).  Since no
label may contain a dot, this language is exactly: split the string on
`'.'`; at least two parts; all leading parts non-empty word-character
runs; last part letters, length 2-15. -/
def reCoreMatch (d : List Char) : Bool :=
  let parts := splitOnDot d
  let lastPart := parts.getLastD []
  decide (2 ≤ parts.length) &&
    (parts.dropLast.all fun p => !p.isEmpty && p.all isWordChar) &&
    decide (2 ≤ lastPart.length) &&
    decide (lastPart.length ≤ 15) &&
    lastPart.all isAlphaIgnoreCase

/-- `is_valid_domain` (lines 55-64): `re.match` of the pattern
`^(?!:\/\/)([a-zA-Z0-9-_]+\.)+[a-zA-Z]{2,15}$` with `re.IGNORECASE`.
The lookahead `(?!://)` rejects strings starting with `"://"` (it is in
fact redundant, since `':'` is in no character class).  `re.match`
anchors at the start, and without `re.MULTILINE` the `$` matches at the
end of the string or just before one trailing newline, so the pattern
accepts a string iff its body matches the whole string or the string
ends in `'\n'` and the body matches the string without that final
newline.  (Semantics confirmed against the compiled pattern: e.g.
`"a.com\n"` is accepted, `"a.com\n\n"` is not.) -/
def is_valid_domain (d : List Char) : Bool :=
  !(d.take 3 = [':', '/', '/']) &&
    (reCoreMatch d ||
      (decide (d.getLast? = some '\n') && reCoreMatch d.dropLast))

/-- Lines 100-105: the loop that keeps string entries (cleaned) and skips
non-string entries with a warning. -/
def cleaned_domains (raw : List RawEntry) : List (List Char) :=
  raw.filterMap fun e =>
    match e with
    | .str s => some (clean_domain s)
    | .nonString => none

/-- Line 107: `input_domains = set(filter(is_valid_domain, cleaned_domains))`. -/
def input_domains (raw : List RawEntry) : Finset (List Char) :=
  ((cleaned_domains raw).filter is_valid_domain).toFinset

/-- One record of the API's JSON response: an optional `employeeAt` list
and an optional `clientAt` list of domain strings (the only two fields
the program consumes, lines 190-199). -/
structure ResponseRecord where
  employeeAt : Option (List (List Char))
  clientAt : Option (List (List Char))
deriving DecidableEq

/-- Python's `'k' in item and item['k']`: the key is present and its
value is a non-empty (truthy) list. -/
def presentNonempty : Option (List α) → Bool
  | some (_ :: _) => true
  | _ => false

/-- Observable trace of one `fetch_data` call: the returned value
(`none` both on cancellation and on retry exhaustion, `some records` on
success — the function itself returns only this value), plus ghost
instrumentation: how many HTTP requests were issued and which backoff
sleeps were performed, in order. -/
structure FetchTrace where
  result : Option (List ResponseRecord)
  attemptsMade : Nat
  sleeps : List Nat
deriving DecidableEq

/-- The `for attempt in range(5)` loop of `fetch_data` (lines 137-164),
over the list of remaining attempt indices.  `flag k` is the value of
`shutdown_flag.is_set()` at the k-th check (check 0 is the one before
the loop, check `attempt+1` the one at the top of iteration `attempt`);
`oracle attempt` is the outcome of the HTTP request of that iteration:
`some records` for a 2xx response whose body parses, `none` for a
`RequestException` (network error, timeout, non-2xx).  On a failure
that is not the last attempt (`attempt == 4`), the code sleeps
`(2 ** attempt) * 2` seconds and retries. -/
def fetchLoop (flag : Nat → Bool) (oracle : Nat → Option (List ResponseRecord)) :
    List Nat → FetchTrace
  | [] => ⟨none, 0, []⟩
  | attempt :: rest =>
    if flag (attempt + 1) then ⟨none, 0, []⟩
    else
      match oracle attempt with
      | some records => ⟨some records, 1, []⟩
      | none =>
        if attempt = 4 then ⟨none, 1, []⟩
        else
          let t := fetchLoop flag oracle rest
          ⟨t.result, t.attemptsMade + 1, 2 ^ attempt * 2 :: t.sleeps⟩

/-- `fetch_data` (lines 132-164): an initial flag check before the loop
(line 134), then the five-attempt retry loop. -/
def fetch_data (flag : Nat → Bool) (oracle : Nat → Option (List ResponseRecord)) :
    FetchTrace :=
  if flag 0 then ⟨none, 0, []⟩ else fetchLoop flag oracle [0, 1, 2, 3, 4]

/-- Line 171: `[list(input_domains)[i:i + 50] for i in range(0, len(input_domains), 50)]`,
i.e. contiguous slices of 50 of the set's iteration order (the order is
the parameter `l`). -/
def makeBatches : List (List Char) → List (List (List Char))
  | [] => []
  | x :: rest => ((x :: rest).take 50) :: makeBatches ((x :: rest).drop 50)
termination_by l => l.length
decreasing_by simp [List.length_drop]; omega

/-- Lines 189-199: how one completed future's value `data` is folded
into `results`.  `data` is falsy for both `None` (cancelled or
exhausted fetch) and the empty list, and then contributes nothing
(folding over the empty list also adds nothing); otherwise each item
contributes its `employeeAt` list if present and truthy, else its
`clientAt` list if present and truthy, else nothing — in every case
filtered to members of `input_domains` (`valid`). -/
def absorbItem (valid : Finset (List Char)) (a : Finset (List Char))
    (item : ResponseRecord) : Finset (List Char) :=
  if presentNonempty item.employeeAt then
    a ∪ ((item.employeeAt.getD []).filter fun d => decide (d ∈ valid)).toFinset
  else if presentNonempty item.clientAt then
    a ∪ ((item.clientAt.getD []).filter fun d => decide (d ∈ valid)).toFinset
  else a

def absorbOutcome (valid : Finset (List Char)) (acc : Finset (List Char)) :
    Option (List ResponseRecord) → Finset (List Char)
  | none => acc
  | some items => items.foldl (absorbItem valid) acc

/-- Lines 185-200: the `for future in as_completed(futures)` collection
loop.  Each event pairs the value of `shutdown_flag.is_set()` observed
at the top of that iteration with the completed future's result; a set
flag breaks out of the loop, otherwise the result is absorbed. -/
def collectLoop (valid : Finset (List Char)) :
    List (Bool × Option (List ResponseRecord)) → Finset (List Char) → Finset (List Char)
  | [], acc => acc
  | (flag, data) :: rest, acc =>
    if flag then acc else collectLoop valid rest (absorbOutcome valid acc data)

/-- `main`'s dispatch (lines 177-207) for a shutdown flag whose value is
the constant `flag` throughout the run (the real flag is monotone: once
set it stays set, so a flag set before dispatch is constantly true):
every batch is submitted to `fetch_data` (one oracle per batch), the
completed results are collected by the collection loop starting from
the empty `results` set.  Returns the final result set together with
the total number of HTTP requests issued. -/
def runMain (flag : Bool) (valid : Finset (List Char))
    (oracles : List (Nat → Option (List ResponseRecord))) :
    Finset (List Char) × Nat :=
  let traces := oracles.map fun o => fetch_data (fun _ => flag) o
  (collectLoop valid (traces.map fun t => (flag, t.result)) ∅,
    (traces.map fun t => t.attemptsMade).sum)

/-! ## Helper lemmas -/

theorem splitOnDot_ne_nil (d : List Char) : splitOnDot d ≠ [] := by
  cases d with
  | nil => simp [splitOnDot]
  | cons c rest =>
    simp only [splitOnDot]
    split
    · simp
    · split <;> simp

theorem splitOnDot_append_dot (xs : List Char) :
    splitOnDot (xs ++ ['.']) = splitOnDot xs ++ [[]] := by
  induction xs with
  | nil => simp [splitOnDot]
  | cons c rest ih =>
    obtain ⟨p, ps, hps⟩ := List.exists_cons_of_ne_nil (splitOnDot_ne_nil rest)
    by_cases hc : c = '.'
    · subst hc
      simp [splitOnDot, ih]
    · simp only [List.cons_append, splitOnDot, if_neg hc, List.append_eq]
      rw [ih, hps]
      simp

/-- A string ending in `'.'` does not match the regex body: its final
dot-separated label is empty, violating the 2-character minimum. -/
theorem reCoreMatch_concat_dot (xs : List Char) :
    reCoreMatch (xs ++ ['.']) = false := by
  rw [reCoreMatch]
  simp only [splitOnDot_append_dot, List.getLastD_concat]
  simp

/-- A member of the validated set passed the validity check: its last
character is a letter of the final label or the one trailing newline
the `$` may absorb — never the separator `'.'`. -/
theorem mem_input_domains_not_dot_terminal (raw : List RawEntry) (d : List Char)
    (hd : d ∈ input_domains raw) : d.getLast? ≠ some '.' := by
  intro hlast
  have hv : is_valid_domain d = true := by
    simp only [input_domains, List.mem_toFinset, List.mem_filter] at hd
    exact hd.2
  obtain ⟨xs, rfl⟩ : ∃ xs, d = xs ++ ['.'] := by
    refine ⟨d.dropLast, (List.dropLast_append_getLast? '.' hlast).symm⟩
  rw [is_valid_domain, reCoreMatch_concat_dot] at hv
  simp only [List.getLast?_concat] at hv
  simp at hv

example : clean_domain "www.example.com.".data = "example.com".data := by decide
example : is_valid_domain "example.com".data = true := by decide
example : is_valid_domain "http://example.com".data = false := by decide
example : is_valid_domain "a..com".data = false := by decide
example : is_valid_domain "ex".data = false := by decide
example : is_valid_domain "a.verylongtldname123".data = false := by decide
example : is_valid_domain "A.COM".data = true := by decide
example : is_valid_domain "a.com\n".data = true := by decide
example : is_valid_domain "a.com\n\n".data = false := by decide
example : is_valid_domain "a.abcdefghijklmno\n".data = true := by decide
example : is_valid_domain "a.com\u212A".data = true := by decide
example : is_valid_domain "a.com.\n".data = false := by decide
example : "a.com\n".data ∈ input_domains [.str "a.com\n".data] := by decide
example : clean_domain (clean_domain "www.www.example.com".data)
    ≠ clean_domain "www.www.example.com".data := by decide
example :
    input_domains [.str "a.com".data, .str "www.a.com".data, .str "A.COM".data]
      = {"a.com".data, "A.COM".data} := by decide

/-! ## Claim theorems -/

/-- C3 counterexample: `clean_domain` is not idempotent on every string.
On `"www.www.example.com"` one application yields `"www.example.com"`
and a second application strips the remaining `"www."` again, so
`clean_domain (clean_domain d) ≠ clean_domain d`. -/
theorem c3_counterexample :
    clean_domain (clean_domain "www.www.example.com".data)
      ≠ clean_domain "www.www.example.com".data := by decide

/-- C3 (amended): `clean_domain` is idempotent on every string whose
cleaned form no longer starts with `"www."` nor ends with `'.'` (one
pass strips at most one leading `"www."` and one trailing dot, so a
doubled prefix or doubled trailing dot survives and is stripped again
by a second pass); and `clean_domain "www.example.com." = "example.com"`. -/
theorem c3_clean_domain_idempotent_amended :
    (∀ d : List Char,
      (clean_domain d).take 4 ≠ ['w', 'w', 'w', '.'] →
      (clean_domain d).getLast? ≠ some '.' →
      clean_domain (clean_domain d) = clean_domain d) ∧
    clean_domain "www.example.com.".data = "example.com".data := by
  refine ⟨fun d h1 h2 => ?_, by decide⟩
  conv_lhs => rw [clean_domain]
  simp only [if_neg h1, if_neg h2]

/-- C3 witness: the amended idempotence applied at the concrete input
`"www.example.com."`, whose cleaned form `"example.com"` satisfies both
side conditions. -/
theorem c3_witness :
    clean_domain (clean_domain "www.example.com.".data)
      = clean_domain "www.example.com.".data :=
  c3_clean_domain_idempotent_amended.1 "www.example.com.".data
    (by decide) (by decide)

/-- C4 counterexample: the validated set built from the raw input
`["www.www.example.com"]` contains `"www.example.com"`, which still has
a leading `"www."` label — `clean_domain` strips only one `"www."`. -/
theorem c4_counterexample :
    "www.example.com".data ∈ input_domains [.str "www.www.example.com".data] ∧
    ("www.example.com".data).take 4 = ['w', 'w', 'w', '.'] := by decide

/-- C4 (amended): no member of the validated set ends in the separator
`'.'` — the validity regex forces the last character to be a letter of
the final label or the one trailing newline that `$` can absorb, never
a dot; but a member may retain a leading `"www."` label (see the
counterexample), so only the trailing-separator half of the
canonical-form claim holds. -/
theorem c4_no_trailing_separator (raw : List RawEntry) (d : List Char)
    (hd : d ∈ input_domains raw) : d.getLast? ≠ some '.' :=
  mem_input_domains_not_dot_terminal raw d hd

/-- C4 witness: the amended theorem applied to the concrete input
`["example.com"]` and its member `"example.com"`. -/
theorem c4_witness :
    "example.com".data ∈ input_domains [.str "example.com".data] ∧
    ("example.com".data).getLast? ≠ some '.' :=
  ⟨by decide,
    c4_no_trailing_separator [.str "example.com".data] "example.com".data (by decide)⟩

/-- C8 counterexample: the validated set built from
`["a.com", "www.a.com", "A.COM"]` has two entries, not one:
deduplication is by exact (case-sensitive) string equality after
cleaning, and the code never lowercases, so `"A.COM"` stays distinct
from `"a.com"`. -/
theorem c8_counterexample :
    (input_domains
      [.str "a.com".data, .str "www.a.com".data, .str "A.COM".data]).card ≠ 1 := by
  decide

/-- C8 (amended): building the validated set from
`["a.com", "www.a.com", "A.COM"]` collapses `"a.com"` and
`"www.a.com"` (equal after cleaning) to one entry but keeps `"A.COM"`
as a second entry: the result is exactly `{"a.com", "A.COM"}`. -/
theorem c8_dedup_amended :
    input_domains [.str "a.com".data, .str "www.a.com".data, .str "A.COM".data]
      = {"a.com".data, "A.COM".data} := by decide

/-- C9 counterexample: the claim's final-label bound is not universal.
`"a.abcdefghijklmno\n"` has a final dot-separated label of 16
characters (15 letters and the newline), yet the regex accepts it:
`$` matches before the trailing newline, and the body matches the
string without it. -/
theorem c9_counterexample :
    is_valid_domain "a.abcdefghijklmno\n".data = true ∧
    15 < ((splitOnDot "a.abcdefghijklmno\n".data).getLastD []).length := by
  decide

/-- C9 (amended): the validity predicate accepts `"example.com"` and
rejects `"http://example.com"`, `"a..com"`, `"ex"`; and every string
that does not end in a newline and whose final dot-separated label is
longer than 15 characters (such as `"a.verylongtldname123"`) is
rejected — the newline exception is the single character `$` can absorb
at the end. -/
theorem c9_validity_amended :
    is_valid_domain "example.com".data = true ∧
    is_valid_domain "http://example.com".data = false ∧
    is_valid_domain "a..com".data = false ∧
    is_valid_domain "ex".data = false ∧
    is_valid_domain "a.verylongtldname123".data = false ∧
    ∀ d : List Char, d.getLast? ≠ some '\n' →
      15 < ((splitOnDot d).getLastD []).length → is_valid_domain d = false := by
  refine ⟨by decide, by decide, by decide, by decide, by decide, fun d hnl h => ?_⟩
  have h15 : decide (((splitOnDot d).getLastD []).length ≤ 15) = false := by
    rw [decide_eq_false_iff_not]
    omega
  have hcore : reCoreMatch d = false := by
    simp only [reCoreMatch, h15, Bool.and_false, Bool.false_and]
  have hn : decide (d.getLast? = some '\n') = false := by
    rw [decide_eq_false_iff_not]
    exact hnl
  rw [is_valid_domain, hcore, hn]
  simp

/-- C9 witness: the final-label bound applied at the concrete input
`"a.verylongtldname123"`, which ends in `'3'` (not a newline) and whose
final label has 18 characters. -/
theorem c9_witness :
    "a.verylongtldname123".data.getLast? ≠ some '\n' ∧
    15 < ((splitOnDot "a.verylongtldname123".data).getLastD []).length ∧
    is_valid_domain "a.verylongtldname123".data = false :=
  ⟨by decide, by decide,
    c9_validity_amended.2.2.2.2.2 "a.verylongtldname123".data (by decide) (by decide)⟩

theorem fetch_data_attempts_le (oracle : Nat → Option (List ResponseRecord)) :
    (fetch_data (fun _ => false) oracle).attemptsMade ≤ 5 := by
  rcases h0 : oracle 0 with _ | r0 <;> rcases h1 : oracle 1 with _ | r1 <;>
    rcases h2 : oracle 2 with _ | r2 <;> rcases h3 : oracle 3 with _ | r3 <;>
    rcases h4 : oracle 4 with _ | r4 <;>
    simp [fetch_data, fetchLoop, h0, h1, h2, h3, h4]

theorem fetch_data_sleeps_pattern (oracle : Nat → Option (List ResponseRecord)) :
    (fetch_data (fun _ => false) oracle).sleeps =
      (List.range (fetch_data (fun _ => false) oracle).sleeps.length).map
        fun i => 2 ^ i * 2 := by
  rcases h0 : oracle 0 with _ | r0 <;> rcases h1 : oracle 1 with _ | r1 <;>
    rcases h2 : oracle 2 with _ | r2 <;> rcases h3 : oracle 3 with _ | r3 <;>
    rcases h4 : oracle 4 with _ | r4 <;>
    simp [fetch_data, fetchLoop, h0, h1, h2, h3, h4] <;> decide

theorem fetch_data_fail4_succeed5 (oracle : Nat → Option (List ResponseRecord))
    (hfail : ∀ i, i < 4 → oracle i = none) (rs : List ResponseRecord)
    (hsucc : oracle 4 = some rs) :
    fetch_data (fun _ => false) oracle = ⟨some rs, 5, [2, 4, 8, 16]⟩ := by
  simp [fetch_data, fetchLoop, hfail 0 (by omega), hfail 1 (by omega),
    hfail 2 (by omega), hfail 3 (by omega), hsucc]

theorem fetch_data_exhausted (oracle : Nat → Option (List ResponseRecord))
    (hfail : ∀ i, oracle i = none) :
    fetch_data (fun _ => false) oracle = ⟨none, 5, [2, 4, 8, 16]⟩ := by
  simp [fetch_data, fetchLoop, hfail 0, hfail 1, hfail 2, hfail 3, hfail 4]

/-- C2: with the shutdown flag never set, a fetch makes at most 5
requests and its backoff sleeps follow the pattern `2 ^ i * 2`
(2, 4, 8, 16 seconds between consecutive attempts); an oracle that
fails the first 4 attempts and succeeds on the 5th yields the parsed
records after exactly 5 requests and sleeps 2, 4, 8, 16; an oracle that
always fails yields `none` (the failure return value, no exception)
after exactly 5 requests and the same sleeps. -/
theorem c2_retry_policy (oracle : Nat → Option (List ResponseRecord)) :
    (fetch_data (fun _ => false) oracle).attemptsMade ≤ 5 ∧
    ((fetch_data (fun _ => false) oracle).sleeps =
      (List.range (fetch_data (fun _ => false) oracle).sleeps.length).map
        fun i => 2 ^ i * 2) ∧
    ((∀ i, i < 4 → oracle i = none) → ∀ rs, oracle 4 = some rs →
      fetch_data (fun _ => false) oracle = ⟨some rs, 5, [2, 4, 8, 16]⟩) ∧
    ((∀ i, oracle i = none) →
      fetch_data (fun _ => false) oracle = ⟨none, 5, [2, 4, 8, 16]⟩) :=
  ⟨fetch_data_attempts_le oracle, fetch_data_sleeps_pattern oracle,
    fun hfail rs hsucc => fetch_data_fail4_succeed5 oracle hfail rs hsucc,
    fun hfail => fetch_data_exhausted oracle hfail⟩

/-- C2 witness: the retry policy applied to two concrete oracles — one
failing on attempts 0-3 and succeeding with an empty record list on
attempt 4, one failing always. -/
theorem c2_witness :
    fetch_data (fun _ => false)
        (fun i => if i = 4 then some ([] : List ResponseRecord) else none)
      = ⟨some [], 5, [2, 4, 8, 16]⟩ ∧
    fetch_data (fun _ => false) (fun _ => (none : Option (List ResponseRecord)))
      = ⟨none, 5, [2, 4, 8, 16]⟩ :=
  ⟨(c2_retry_policy _).2.2.1
      (fun i hi => by simp [Nat.ne_of_lt hi]) [] (by simp),
    (c2_retry_policy _).2.2.2 fun i => rfl⟩

/-- C7 counterexample: a cancelled fetch (flag set, an oracle that
would succeed) and an exhausted-retry fetch (flag clear, every attempt
failing) return the very same value `None`, so the three outcome kinds
are not mutually distinguishable by the caller. -/
theorem c7_counterexample :
    (fetch_data (fun _ => true)
        (fun _ => some [⟨some ["a.com".data], none⟩])).result
      = (fetch_data (fun _ => false) (fun _ => none)).result := rfl

/-- C7 (amended): one batch submission returns either the parsed record
sequence (success) or `None`; both exhausted-retry failure and
cancellation are reported as `None`, so success is distinguishable from
the other two cases but failure and cancellation are not
distinguishable from each other. -/
theorem c7_outcome_amended :
    (fetch_data (fun _ => true)
        (fun _ => some [⟨some ["a.com".data], none⟩])).result = none ∧
    (fetch_data (fun _ => false) (fun _ => none)).result = none ∧
    ∀ rs : List ResponseRecord,
      (fetch_data (fun _ => false) (fun _ => some rs)).result = some rs :=
  ⟨rfl, rfl, fun _ => rfl⟩

theorem mem_absorbItem (valid a : Finset (List Char)) (r : ResponseRecord)
    (x : List Char) :
    x ∈ absorbItem valid a r ↔
      x ∈ a ∨ (x ∈ valid ∧
        ((presentNonempty r.employeeAt = true ∧ x ∈ r.employeeAt.getD []) ∨
          (presentNonempty r.employeeAt = false ∧ presentNonempty r.clientAt = true ∧
            x ∈ r.clientAt.getD []))) := by
  unfold absorbItem
  rcases he : presentNonempty r.employeeAt <;> rcases hc : presentNonempty r.clientAt <;>
    simp [Finset.mem_union, List.mem_filter] <;> tauto

theorem mem_foldl_absorbItem (valid : Finset (List Char))
    (items : List ResponseRecord) (acc : Finset (List Char)) (x : List Char) :
    x ∈ items.foldl (absorbItem valid) acc ↔
      x ∈ acc ∨ (x ∈ valid ∧ ∃ r ∈ items,
        (presentNonempty r.employeeAt = true ∧ x ∈ r.employeeAt.getD []) ∨
          (presentNonempty r.employeeAt = false ∧ presentNonempty r.clientAt = true ∧
            x ∈ r.clientAt.getD [])) := by
  induction items generalizing acc with
  | nil => simp
  | cons r rest ih =>
    rw [List.foldl_cons, ih, mem_absorbItem]
    simp only [List.mem_cons]
    constructor
    · rintro ((hx | ⟨hv, hr⟩) | ⟨hv, s, hs, hsel⟩)
      · exact Or.inl hx
      · exact Or.inr ⟨hv, r, Or.inl rfl, hr⟩
      · exact Or.inr ⟨hv, s, Or.inr hs, hsel⟩
    · rintro (hx | ⟨hv, s, (rfl | hs), hsel⟩)
      · exact Or.inl (Or.inl hx)
      · exact Or.inl (Or.inr ⟨hv, hsel⟩)
      · exact Or.inr ⟨hv, s, hs, hsel⟩

/-- C1: absorbing a successful outcome adds exactly the listed domains
that are members of the validated set — per record the `employeeAt`
list when present and non-empty, else the `clientAt` list when present
and non-empty, else nothing — and absorbing `None` (the value carried
by both failed and cancelled fetches) adds nothing. -/
theorem c1_aggregation (valid acc : Finset (List Char))
    (items : List ResponseRecord) (x : List Char) :
    (x ∈ absorbOutcome valid acc (some items) ↔
      x ∈ acc ∨ (x ∈ valid ∧ ∃ r ∈ items,
        (presentNonempty r.employeeAt = true ∧ x ∈ r.employeeAt.getD []) ∨
          (presentNonempty r.employeeAt = false ∧ presentNonempty r.clientAt = true ∧
            x ∈ r.clientAt.getD []))) ∧
    absorbOutcome valid acc none = acc :=
  ⟨mem_foldl_absorbItem valid items acc x, rfl⟩

/-- C10: once an iteration of the result-collection loop observes the
shutdown flag set, the loop stops absorbing: whatever outcomes complete
after that observation — including successful ones carrying validated
domains — the final result set is the one accumulated strictly before
the observation. -/
theorem c10_no_growth_after_cancel (valid : Finset (List Char))
    (pre post : List (Bool × Option (List ResponseRecord)))
    (d : Option (List ResponseRecord)) (acc : Finset (List Char)) :
    collectLoop valid (pre ++ (true, d) :: post) acc = collectLoop valid pre acc := by
  induction pre generalizing acc with
  | nil => simp [collectLoop]
  | cons e rest ih =>
    obtain ⟨f, dat⟩ := e
    rcases f <;> simp [collectLoop, ih]

/-- C6: with the cancellation flag set before dispatch, every batch's
fetch returns immediately without issuing a single HTTP request, the
collection loop breaks before absorbing anything, and the run produces
the empty result set with zero requests made. -/
theorem c6_cancel_before_dispatch (valid : Finset (List Char))
    (oracles : List (Nat → Option (List ResponseRecord))) :
    runMain true valid oracles = (∅, 0) := by
  cases oracles with
  | nil => rfl
  | cons o rest =>
    simp only [runMain, List.map_cons, List.map_map]
    rw [Prod.mk.injEq]
    refine ⟨rfl, ?_⟩
    rw [List.sum_cons]
    have h0 : (fetch_data (fun _ => true) o).attemptsMade = 0 := rfl
    rw [h0, Nat.zero_add]
    refine List.sum_eq_zero fun x hx => ?_
    obtain ⟨o', _, rfl⟩ := List.mem_map.mp hx
    rfl

theorem makeBatches_flatten (l : List (List Char)) : (makeBatches l).flatten = l := by
  induction l using makeBatches.induct with
  | case1 => simp [makeBatches]
  | case2 x rest ih =>
    rw [makeBatches, List.flatten_cons, ih, List.take_append_drop]

theorem makeBatches_length (l : List (List Char)) :
    (makeBatches l).length = (l.length + 49) / 50 := by
  induction l using makeBatches.induct with
  | case1 => simp [makeBatches]
  | case2 x rest ih =>
    rw [makeBatches, List.length_cons, ih]
    simp only [List.length_drop, List.length_cons]
    omega

theorem countP_mem_eq_zero_of_not_mem_flatten (x : List Char) :
    ∀ bs : List (List (List Char)), x ∉ bs.flatten →
      bs.countP (fun b => decide (x ∈ b)) = 0 := by
  intro bs
  induction bs with
  | nil => simp
  | cons b rest ih =>
    intro h
    rw [List.flatten_cons, List.mem_append] at h
    push_neg at h
    rw [List.countP_cons]
    simp only [h.1, decide_eq_true_eq, if_neg (fun hc => h.1 hc), Nat.add_zero]
    exact ih h.2

theorem countP_mem_eq_one_of_mem_flatten (x : List Char) :
    ∀ bs : List (List (List Char)), bs.flatten.Nodup → x ∈ bs.flatten →
      bs.countP (fun b => decide (x ∈ b)) = 1 := by
  intro bs
  induction bs with
  | nil => simp
  | cons b rest ih =>
    intro hnd hx
    rw [List.flatten_cons] at hnd hx
    rw [List.nodup_append] at hnd
    rw [List.countP_cons]
    by_cases hb : x ∈ b
    · have h0 : x ∉ rest.flatten := fun hr => hnd.2.2 hb hr
      rw [countP_mem_eq_zero_of_not_mem_flatten x rest h0]
      simp [hb]
    · have hr : x ∈ rest.flatten := by
        rcases List.mem_append.mp hx with h | h
        · exact absurd h hb
        · exact h
      rw [ih hnd.2.1 hr]
      simp [hb]

/-- C5: for every iteration order of the validated set, the batch
lengths sum to the number of domains, the number of batches is
`⌈N / 50⌉` (computed as `(N + 49) / 50`), each domain of the
(duplicate-free) order lies in exactly one batch, and the empty order
yields no batches. -/
theorem c5_batching :
    (∀ l : List (List Char), ((makeBatches l).map List.length).sum = l.length) ∧
    (∀ l : List (List Char), (makeBatches l).length = (l.length + 49) / 50) ∧
    (∀ (l : List (List Char)) (x : List Char), l.Nodup → x ∈ l →
      (makeBatches l).countP (fun b => decide (x ∈ b)) = 1) ∧
    makeBatches [] = [] := by
  refine ⟨fun l => ?_, makeBatches_length, fun l x hnd hx => ?_, by simp [makeBatches]⟩
  · rw [← List.length_flatten, makeBatches_flatten]
  · exact countP_mem_eq_one_of_mem_flatten x (makeBatches l)
      (by rw [makeBatches_flatten]; exact hnd) (by rw [makeBatches_flatten]; exact hx)

/-- C5 witness: the exactly-one-batch property applied to the concrete
duplicate-free order `["a.com", "b.com"]` and its member `"a.com"`. -/
theorem c5_witness :
    (["a.com".data, "b.com".data] : List (List Char)).Nodup ∧
    (makeBatches ["a.com".data, "b.com".data]).countP
      (fun b => decide ("a.com".data ∈ b)) = 1 :=
  ⟨by decide, c5_batching.2.2.1 ["a.com".data, "b.com".data] "a.com".data
    (by decide) (by decide)⟩
